import Mathlib

/-!
Verification development for the Relax ONNX frontend
(`python/tvm/relax/frontend/onnx_frontend.py`).

The Python code is shallowly embedded: each modelled function is a direct
transcription of the corresponding Python function.  Python exceptions are
modelled with `Except PyErr`, Python dictionaries with insertion-ordered
association lists (`dictSet` replaces the first matching key in place and
appends a new key at the end, exactly like a Python dict), Python list
indexing and slicing with `pyIndex` and `pySliceTo` (which implement the
negative-index and clamping rules of Python), and `sorted` with an
insertion sort (`pySorted`), which produces the same list as the Python
builtin on natural numbers.

The tensor-operator library (`topi`), the Relay converter bodies and the
relay-to-relax translator are external collaborators of this core; their
results are abstracted as opaque `Value` data and as a converter oracle
passed to the graph builder, matching the scope boundary of the design:
this core only routes, names and binds those results.
-/

namespace OnnxRelax

/-- Python exceptions raised by the modelled code paths. -/
inductive PyErr where
  /-- `ValueError("Tensor name is required.")` in `_parse_graph_initializers`. -/
  | valueErrorBlankName
  /-- `ValueError("Cannot parse attribute ...")` in `_parse_attr`. -/
  | valueErrorCannotParse (attrName : String)
  /-- `AssertionError("Only one type of attr is allowed")` in `_parse_attr`. -/
  | assertOnlyOne (attrName : String)
  /-- `NotImplementedError` for the repeated sub-graph field in `_parse_attr`. -/
  | notImplementedGraphs
  /-- Python `KeyError` from a dictionary lookup of an unbound name. -/
  | keyError (name : String)
  /-- Python `IndexError` from list indexing. -/
  | indexError
  /-- `tvm.error.OpNotImplemented` carrying the unsupported operator names. -/
  | opNotImplemented (names : List String)
  /-- `NotImplementedError("Operator ... not implemented.")` in `_convert_operator`. -/
  | notImplementedOp (name : String)
  /-- `NotImplementedError("opset version ... not implemented")` in `get_converter`. -/
  | unimplementedOpsetVersion (version : Nat)
  /-- `AssertionError("Missing outputs during conversion. Expected ... but Got ...")`. -/
  | assertMissingOutputs (declared produced : Nat)
  /-- An exception raised inside an external converter body or the
  relay-to-relax translator; both are external collaborators. -/
  | externalFailure (id : Nat)
  deriving DecidableEq

/-! ### Python list and dict semantics -/

/-- Python list indexing `l[i]` for an integer index: negative indices count
from the end; a `none` result models an `IndexError`. -/
def pyIndex (l : List α) (i : Int) : Option α :=
  let j : Int := if i < 0 then i + l.length else i
  if j < 0 then none else l.get? j.toNat

/-- Python slicing `l[:stop]`: a negative stop counts from the end and the
result is clamped to the available elements. -/
def pySliceTo (l : List α) (stop : Int) : List α :=
  let s : Int := if stop < 0 then stop + l.length else stop
  l.take s.toNat

/-- Insert into an ascending list, keeping duplicates. -/
def insortAux (x : Nat) : List Nat → List Nat
  | [] => [x]
  | y :: ys => if x ≤ y then x :: y :: ys else y :: insortAux x ys

/-- Python `sorted` on natural numbers (insertion sort; on `Nat` the output
list coincides with the builtin since equal elements are identical). -/
def pySorted : List Nat → List Nat
  | [] => []
  | x :: xs => insortAux x (pySorted xs)

/-- Python dict lookup `d[k]` (first matching key of the association list). -/
def dictGet : List (String × α) → String → Option α
  | [], _ => none
  | (k0, v0) :: rest, k => if k0 = k then some v0 else dictGet rest k

/-- Python dict update `d[k] = v`: replace in place the first binding of `k`,
or append a new binding at the end (Python dicts keep insertion order). -/
def dictSet : List (String × α) → String → α → List (String × α)
  | [], k, v => [(k, v)]
  | (k0, v0) :: rest, k, v =>
    if k0 = k then (k0, v) :: rest else (k0, v0) :: dictSet rest k v

/-- The keys of a modelled dict, in order. -/
def dictKeys (e : List (String × α)) : List String := e.map Prod.fst

/-! ### Operator version resolution (`OnnxOpConverter.get_converter`)

`versions` models the list of version numbers scraped from `dir(cls)`
(the numbers `x` of the `_impl_vx` methods); `hasattr(cls, "_impl_v{v}")`
is `v ∈ versions`.  The returned number identifies the chosen
implementation method. -/

/-- Transcription of `OnnxOpConverter.get_converter`:
```
versions = sorted(versions + [opset])
version = versions[max([i for i, v in enumerate(versions) if v == opset]) - 1]
if hasattr(cls, "_impl_v{}".format(version)): return ...
raise NotImplementedError(...)
```
The Python index `max(...) - 1` is an `int`, so when `opset` sorts first the
index is `-1`, which Python wraps around to the last element. -/
def getConverter (versions : List Nat) (opset : Nat) : Except PyErr Nat :=
  let vs := pySorted (versions ++ [opset])
  let occurrences := (vs.enum.filter (fun p => p.2 = opset)).map Prod.fst
  let top := occurrences.foldl max 0
  match pyIndex vs ((top : Int) - 1) with
  | none => .error .indexError
  | some version =>
    if version ∈ versions then .ok version
    else .error (.unimplementedOpsetVersion version)

/-! ### The cross-dialect splice (`GraphProto._relay_output_adapter`, tail)

A `Binding` stands for one binding of the rewritten sub-module body
(`updated_func.body.blocks[0].bindings`); `v` identifies the bound variable
and `value` the right-hand side (`binding.value`).  The primary build
context is the list of bindings already emitted through
`self.bb.emit_normalized`. -/

/-- One SSA binding of the rewritten legacy sub-module. -/
structure Binding where
  v : Nat
  value : Nat
  deriving DecidableEq

/-- Transcription of the final splice of `_relay_output_adapter`:
```
if isinstance(updated_func.ret_struct_info, relax.TupleStructInfo):
    final_binding = var_bindings[-2]
    for binding in var_bindings[:-2]: self.bb.emit_normalized(binding)
else:
    final_binding = var_bindings[-1]
    for binding in var_bindings[:-1]: self.bb.emit_normalized(binding)
return final_binding.value
```
Returns the primary context after the loop and the returned value. -/
def relayOutputSplice (primary : List Binding) (retIsTuple : Bool)
    (varBindings : List Binding) : Except PyErr (List Binding × Nat) :=
  if retIsTuple then
    match pyIndex varBindings (-2) with
    | none => .error .indexError
    | some finalBinding =>
      .ok ((pySliceTo varBindings (-2)).foldl (fun acc b => acc ++ [b]) primary,
           finalBinding.value)
  else
    match pyIndex varBindings (-1) with
    | none => .error .indexError
    | some finalBinding =>
      .ok ((pySliceTo varBindings (-1)).foldl (fun acc b => acc ++ [b]) primary,
           finalBinding.value)

/-! ### The save/restore of `relax.BlockBuilder._current`
(`GraphProto._relay_output_adapter`, middle)

The process-wide pointer is an `Option Nat` (a builder identity or `None`).
The nested translation `testing.relay_translator.from_relay` is an external
collaborator, abstracted as its outcome.  Python has no `try/finally` here,
so when the nested call raises, the statements after it do not run and the
exception propagates while the global keeps whatever value it had. -/

/-- The process-wide mutable state: `relax.BlockBuilder._current`. -/
structure BuilderGlobal where
  current : Option Nat
  deriving DecidableEq

/-- Transcription of:
```
prev_bb = relax.BlockBuilder._current
relax.BlockBuilder._current = None
relax_mod = testing.relay_translator.from_relay(function, self._target)
relax.BlockBuilder._current = prev_bb
```
Returns the outcome together with the state of the global afterwards. -/
def bridgeTranslate (s : BuilderGlobal) (nested : Except PyErr Nat) :
    Except PyErr Nat × BuilderGlobal :=
  let prevBb := s.current
  let s1 : BuilderGlobal := ⟨none⟩
  match nested with
  | .error e => (.error e, s1)
  | .ok m => (.ok m, ⟨prevBb⟩)

/-! ### Shape and type extraction (`get_info`) -/

/-- One `dim` entry of a `TensorShapeProto`: `dim_param` is the declared
symbolic name (possibly empty) and `dim_value` the declared concrete size
(`none` models a missing value, matching the `value is None` test). -/
structure DimProto where
  dim_param : String
  dim_value : Option Int
  deriving DecidableEq

/-- The `type.tensor_type` part of a `ValueInfoProto`: the wire type code
(`0` is the protobuf default, falsy in Python) and the dim list. -/
structure TypeProto where
  elem_type : Nat
  dims : List DimProto
  deriving DecidableEq

/-- A `ValueInfoProto`: a named, typed value descriptor. -/
structure ValueInfoProto where
  name : String
  type : TypeProto
  deriving DecidableEq

/-- One dimension of an extracted shape: either the concrete declared size
or a fresh symbolic variable `tvm.tir.Var("d", "int64")`. -/
inductive Dim where
  | val (v : Int)
  | sym (hint : String)
  deriving DecidableEq

/-- One entry of the `shape_name` diagnostic list built by `get_info`: the
declared symbolic name for replaced dimensions, the concrete value
otherwise. -/
inductive ShapeName where
  | nm (s : String)
  | value (v : Int)
  deriving DecidableEq

/-- What one loop iteration of `get_info` appends to `shape`. -/
def dimToDim (d : DimProto) : Dim :=
  match d.dim_value with
  | none => .sym "d"
  | some v => if v = 0 then .sym "d" else .val v

/-- What one loop iteration of `get_info` appends to `shape_name`. -/
def dimToShapeName (d : DimProto) : ShapeName :=
  match d.dim_value with
  | none => .nm d.dim_param
  | some v => if v = 0 then .nm d.dim_param else .value v

/-- The result 4-tuple of `get_info`. -/
structure GetInfoResult where
  name : String
  shape : List Dim
  dtype : Option Nat
  shapeName : List ShapeName
  deriving DecidableEq

/-- Transcription of `get_info`: the loop appends one `shape` and one
`shape_name` entry per dim (written as maps over the dim list); a dim whose
value is missing or `0` becomes a fresh `tir.Var("d", "int64")` and its
declared symbolic name is recorded.  `get_type` is an external wire-code
mapping, abstracted as the code itself; the protobuf default `0` is falsy,
so it yields no dtype. -/
def getInfo (p : ValueInfoProto) : GetInfoResult :=
  { name := p.name
    shape := p.type.dims.map dimToDim
    dtype := if p.type.elem_type = 0 then none else some p.type.elem_type
    shapeName := p.type.dims.map dimToShapeName }

/-! ### IR values and the symbol environment

`Value` abstracts the relax expressions the builder binds: initializer
constants (`relax.const`), input parameters (`testing.nn.Parameter`),
opaque results of external converter bodies, emitted `TupleGetItem`
projections, and `relax.Tuple` aggregates. -/

/-- Abstracted relax IR values. -/
inductive Value where
  | const (tensorId : Nat)
  | param (name : String) (shape : List Dim) (dtype : Option Nat)
  | raw (id : Nat)
  | getItem (t : Value) (i : Nat)
  | tuple (elts : List Value)

/-- The symbol environment `self._nodes`: a Python dict from name to value. -/
abbrev Env := List (String × Value)

/-! ### Attribute decoding (`GraphProto._parse_attr`) -/

/-- One raw `AttributeProto` record: the five singular variant fields
(`f`, `i`, `s`, `g`, `t` — `HasField` is `Option.isSome`) and the four
repeated variant fields (populated when nonempty).  Payloads are opaque. -/
structure AttributeProto where
  name : String
  f : Option Nat
  i : Option Nat
  s : Option Nat
  g : Option Nat
  floats : List Nat
  ints : List Nat
  strings : List Nat
  t : Option Nat
  tensors : List Nat
  graphs : List Nat
  deriving DecidableEq

/-- A decoded attribute value, tagged by the variant it came from; the
`tvmCustom` variant models the private bookkeeping entry added by
`_construct_nodes`. -/
inductive AttrValue where
  | vf (x : Nat)
  | vi (x : Nat)
  | vs (x : Nat)
  | vg (x : Nat)
  | vfloats (xs : List Nat)
  | vints (xs : List Nat)
  | vstrings (xs : List Nat)
  | vt (x : Nat)
  | vtensors (xs : List Nat)
  | tvmCustom (nodeName : String) (numOutputs : Nat)
  deriving DecidableEq

/-- The decoded attribute mapping. -/
abbrev AttrDict := List (String × AttrValue)

/-- Transcription of one iteration of the `_parse_attr` loop, in the exact
field order of the Python code: `f, i, s, g`, then the repeated
`floats, ints, strings` (each guarded by the only-one-type assertion),
then `t`, then `tensors` (also guarded), then the rejection of the
repeated `graphs` field, then the cannot-parse check. -/
def parseAttrOne (attrs : AttrDict) (a : AttributeProto) : Except PyErr AttrDict := do
  let attrs := match a.f with | some x => dictSet attrs a.name (.vf x) | none => attrs
  let attrs := match a.i with | some x => dictSet attrs a.name (.vi x) | none => attrs
  let attrs := match a.s with | some x => dictSet attrs a.name (.vs x) | none => attrs
  let attrs := match a.g with | some x => dictSet attrs a.name (.vg x) | none => attrs
  let attrs ←
    if a.floats ≠ [] then
      if (dictGet attrs a.name).isSome then throw (.assertOnlyOne a.name)
      else pure (dictSet attrs a.name (.vfloats a.floats))
    else pure attrs
  let attrs ←
    if a.ints ≠ [] then
      if (dictGet attrs a.name).isSome then throw (.assertOnlyOne a.name)
      else pure (dictSet attrs a.name (.vints a.ints))
    else pure attrs
  let attrs ←
    if a.strings ≠ [] then
      if (dictGet attrs a.name).isSome then throw (.assertOnlyOne a.name)
      else pure (dictSet attrs a.name (.vstrings a.strings))
    else pure attrs
  let attrs := match a.t with | some x => dictSet attrs a.name (.vt x) | none => attrs
  let attrs ←
    if a.tensors ≠ [] then
      if (dictGet attrs a.name).isSome then throw (.assertOnlyOne a.name)
      else pure (dictSet attrs a.name (.vtensors a.tensors))
    else pure attrs
  if a.graphs ≠ [] then throw .notImplementedGraphs
  else if (dictGet attrs a.name).isNone then throw (.valueErrorCannotParse a.name)
  else pure attrs

/-- Transcription of `_parse_attr`: fold the per-record step over the
record list, starting from the empty dict. -/
def parseAttr : List AttributeProto → AttrDict → Except PyErr AttrDict
  | [], attrs => .ok attrs
  | a :: rest, attrs => do parseAttr rest (← parseAttrOne attrs a)

/-! ### Graph records and the supported-operator catalog -/

/-- One graph node (`NodeProto`): operator tag, ordered input references
(empty string = absent), ordered output names, raw attributes, node name. -/
structure NodeProto where
  op_type : String
  input : List String
  output : List String
  /-- The `attribute` field of the protobuf record. -/
  attrProtos : List AttributeProto
  name : String

/-- One initializer record: name plus an opaque handle for the literal
tensor (`get_numpy` / `_parse_array` are external deserialization). -/
structure InitTensor where
  name : String
  tensorId : Nat
  deriving DecidableEq

/-- An ONNX graph as consumed by `GraphProto.from_onnx`: `inits` models the
`graph.initializer` field. -/
structure GraphRec where
  inits : List InitTensor
  input : List ValueInfoProto
  node : List NodeProto
  output : List String

/-- The key set of the dict literal returned by `_get_convert_map`, in
source order (primary relax converters and bridged relay converters share
the one table). -/
def convertMapKeys : List String :=
  ["MatMul", "Concat", "Add", "Mul", "Cast", "Gather", "Gemm", "Reshape",
   "Div", "Sigmoid", "Softmax", "Transpose", "Unsqueeze", "Gelu", "BiasGelu",
   "Where", "Clip", "Equal", "Shape", "Not", "Tanh", "Sqrt", "Relu", "Conv",
   "Pow", "Erf", "CumSum", "Squeeze", "Constant", "Sub",
   "LayerNormalization", "SkipLayerNormalization", "EmbedLayerNormalization",
   "ReduceMax", "ReduceMin", "ReduceSum", "ReduceMean", "ReduceProd",
   "ReduceLogSumExp", "ReduceLogSum", "ReduceSumSquare", "ReduceL1",
   "ReduceL2", "Expand", "ConstantOfShape", "Slice", "Attention", "Pad",
   "Split", "Tile", "BatchNormalization", "GlobalAveragePool", "Flatten",
   "MaxPool"]

/-! ### Top-level importer phases -/

/-- Python `not name.strip()`: true when the name is blank, i.e. empty or
whitespace only (nothing remains after stripping). -/
def strBlank (s : String) : Bool := s.toList.all (fun c => c.isWhitespace)

/-- Transcription of `_parse_graph_initializers`: a blank name (empty after
`strip`) raises, otherwise the name is bound to a `relax.const` of the
parsed array; there is no duplicate check, so a repeated name overwrites. -/
def parseGraphInits : List InitTensor → Env → Except PyErr Env
  | [], env => .ok env
  | t :: rest, env =>
    if strBlank t.name then .error .valueErrorBlankName
    else parseGraphInits rest (dictSet env t.name (.const t.tensorId))

/-- The caller-supplied configuration of `GraphProto`: the shape override
map `self._shape` and the dtype override `self._dtype`
(a single dtype or a per-name map). -/
inductive DtypeSpec where
  | one (d : Nat)
  | table (m : List (String × Nat))

/-- Caller configuration (`shape`, `dtype` constructor arguments). -/
structure ImportConfig where
  shapeOverride : List (String × List Int)
  dtype : DtypeSpec

/-- Transcription of `_parse_graph_input`: names already bound (by an
initializer) are skipped via `continue` — which also skips the
`self._inputs` update; fresh names are bound to a new parameter variable
built from the overridden or declared shape and dtype.  The
unknown-dimension branch only emits a warning and is omitted. -/
def parseGraphInput (cfg : ImportConfig) :
    List ValueInfoProto → Env → Env → Env × Env
  | [], env, inputs => (env, inputs)
  | vi :: rest, env, inputs =>
    let info := getInfo vi
    match dictGet env info.name with
    | some _ => parseGraphInput cfg rest env inputs
    | none =>
      let iShape :=
        match dictGet cfg.shapeOverride info.name with
        | some dims => dims.map Dim.val
        | none => info.shape
      let dtype :=
        match cfg.dtype with
        | .table m =>
          match dictGet m info.name with
          | some d => some d
          | none => info.dtype
        | .one d => some d
      let v := Value.param info.name iShape dtype
      parseGraphInput cfg rest (dictSet env info.name v) (dictSet inputs info.name v)

/-- Python set insertion (`set.add`), modelled on a duplicate-free list;
membership is what the claims consume, not iteration order. -/
def pySetAdd (s : List String) (x : String) : List String :=
  if x ∈ s then s else s ++ [x]

/-- The `unsupported_ops` set accumulated by the `_check_for_unsupported_ops`
loop, threaded through the per-node membership test. -/
def collectUnsupported (acc : List String) : List NodeProto → List String
  | [] => acc
  | n :: rest =>
    collectUnsupported
      (if n.op_type ∉ convertMapKeys ∧ n.op_type ≠ "Constant" then
        pySetAdd acc n.op_type
      else acc) rest

/-- Transcription of `_check_for_unsupported_ops`: one pass collecting every
unknown tag, then a single `OpNotImplemented` naming all of them (or no
effect when the set is empty). -/
def checkForUnsupportedOps (nodes : List NodeProto) : Except PyErr Unit :=
  let unsupportedOps := collectUnsupported [] nodes
  if unsupportedOps = [] then .ok () else .error (.opNotImplemented unsupportedOps)

/-! ### Node construction (`GraphProto._construct_nodes`) -/

/-- Transcription of the input-resolution loop of `_construct_nodes`: an
empty reference appends the explicit absent placeholder `None`; a non-empty
reference is looked up in `self._nodes`, raising a `KeyError` when unbound. -/
def resolveNodeInputs (env : Env) : List String → Except PyErr (List (Option Value))
  | [] => .ok []
  | nm :: rest =>
    if nm = "" then (resolveNodeInputs env rest).map (fun l => none :: l)
    else
      match dictGet env nm with
      | some v => (resolveNodeInputs env rest).map (fun l => some v :: l)
      | none => .error (.keyError nm)

/-- Transcription of `onnx_input.__getitem__` for an integer index:
`list(self)[item] if item < len(self) else None`.  An index at or past the
length yields the absent value without an exception; an in-range index
(negative indices included, per Python list semantics) reads the slot. -/
def onnxInputGet (xs : List (Option Value)) (i : Int) : Except PyErr (Option Value) :=
  if i < (xs.length : Int) then
    match pyIndex xs i with
    | some v => .ok v
    | none => .error .indexError
  else .ok none

/-- The shape of a converter result, as `_construct_nodes` inspects it:
either a single expression — whose `checked_type` may be a `TupleType`
with a known field count — or an explicit `relax.Tuple`. -/
inductive ConvResult where
  | single (v : Value) (tupleFields : Option Nat)
  | tuple (elts : List Value)

/-- `outputs_num` as computed by `_construct_nodes`. -/
def convValuesCount : ConvResult → Nat
  | .single _ none => 1
  | .single _ (some n) => n
  | .tuple vs => vs.length

/-- The value `op` holds after the unpack step: a single non-tuple value is
kept; a var of tuple type is replaced by `relax.Tuple` of the emitted
`TupleGetItem` projections; an explicit tuple is kept. -/
def convertedValue : ConvResult → Value
  | .single v none => v
  | .single v (some n) => .tuple ((List.range n).map (fun i => .getItem v i))
  | .tuple vs => .tuple vs

/-- The field list of the tuple `op` in the multi-output path (`op[i]`). -/
def opvElems : ConvResult → List Value
  | .single v none => [v]
  | .single v (some n) => (List.range n).map (fun i => .getItem v i)
  | .tuple vs => vs

/-- The multi-output binding loop
`for k, i in zip(list(outputs), range(len(outputs))): self._nodes[k] = op[i]`,
threading the running index. -/
def bindOutputsIdx (opv : List Value) : Env → List String → Nat → Env
  | env, [], _ => env
  | env, k :: ks, i => bindOutputsIdx opv (dictSet env k (opv.getD i (.tuple []))) ks (i + 1)

/-- Transcription of the output-binding tail of `_construct_nodes`: compute
`outputs_num`, assert the node does not declare more outputs than were
produced, then either bind the single declared output (`outputs[0]` raises
`IndexError` on an empty output list) or bind each declared name to the
matching tuple field. -/
def bindNodeOutputs (op : ConvResult) (outputs : List String) (env : Env) :
    Except PyErr Env :=
  let outputsNum := convValuesCount op
  if outputs.length > outputsNum then
    .error (.assertMissingOutputs outputs.length outputsNum)
  else if outputsNum = 1 then
    match outputs with
    | [] => .error .indexError
    | o :: _ => .ok (dictSet env o (convertedValue op))
  else
    .ok (bindOutputsIdx (opvElems op) env outputs 0)

/-- The converter oracle: the body of a converter (`_impl_vx` or a bridged
relay conversion) is an external collaborator; the graph builder only sees
the result it hands back (or the exception it raises). -/
abbrev ConvOracle :=
  String → List (Option Value) → AttrDict → Except PyErr ConvResult

/-- Transcription of `_convert_operator`: dispatch through the convert map
(the version resolution and the relay-bridge plumbing live behind the
oracle), raising when the tag is not in the map. -/
def convertOperator (conv : ConvOracle) (opName : String)
    (inputs : List (Option Value)) (attrs : AttrDict) : Except PyErr ConvResult :=
  if opName ∈ convertMapKeys then conv opName inputs attrs
  else .error (.notImplementedOp opName)

/-- Transcription of one iteration of the `_construct_nodes` loop: decode
attributes, resolve inputs, record the bookkeeping entry
`attr["tvm_custom"] = {"name": ..., "num_outputs": ...}`, convert, bind. -/
def constructNode (conv : ConvOracle) (env : Env) (node : NodeProto) :
    Except PyErr Env := do
  let attr ← parseAttr node.attrProtos []
  let inputs ← resolveNodeInputs env node.input
  let iName := node.name
  let outputs := node.output
  let attr := dictSet attr "tvm_custom" (.tvmCustom iName outputs.length)
  let op ← convertOperator conv node.op_type inputs attr
  bindNodeOutputs op outputs env

/-- Transcription of `_construct_nodes`: the strictly sequential pass over
the node list in declaration order. -/
def constructNodes (conv : ConvOracle) : List NodeProto → Env → Except PyErr Env
  | [], env => .ok env
  | node :: rest, env => do constructNodes conv rest (← constructNode conv env node)

/-- Transcription of the body of `from_onnx` (the phases inside the
dataflow block): initializers, inputs, the unsupported-operator pre-check,
node construction, then the declared outputs are looked up and a single
output is returned unwrapped while several are wrapped in a tuple.
Returns the final environment together with the output expression. -/
def fromOnnxGraph (conv : ConvOracle) (cfg : ImportConfig) (g : GraphRec) :
    Except PyErr (Env × Value) := do
  let env ← parseGraphInits g.inits []
  let (env, _inputs) := parseGraphInput cfg g.input env []
  checkForUnsupportedOps g.node
  let env ← constructNodes conv g.node env
  let outputs ← g.output.mapM (fun o =>
    match dictGet env o with
    | some v => Except.ok v
    | none => Except.error (.keyError o))
  let ret := match outputs with
    | [v] => v
    | vs => Value.tuple vs
  return (env, ret)

/-! ## Helper lemmas -/

theorem dictGet_dictSet (e : List (String × α)) (k k2 : String) (v : α) :
    dictGet (dictSet e k v) k2 = if k2 = k then some v else dictGet e k2 := by
  induction e with
  | nil =>
    simp only [dictSet, dictGet]
    by_cases h : k = k2
    · subst h; simp
    · have h2 : ¬ k2 = k := fun hh => h hh.symm
      simp [h, h2]
  | cons p rest ih =>
    obtain ⟨k0, v0⟩ := p
    by_cases h0 : k0 = k
    · subst h0
      simp only [dictSet, if_pos rfl, dictGet]
      by_cases h2 : k0 = k2
      · subst h2; simp
      · have h2b : ¬ k2 = k0 := fun hh => h2 hh.symm
        simp [h2, h2b]
    · simp only [dictSet, if_neg h0, dictGet]
      by_cases h2 : k0 = k2
      · subst h2
        simp [h0]
      · simp [h2, ih]

/-- Updating a different key preserves absence of a binding. -/
theorem dictGet_dictSet_none {e : List (String × α)} {k2 : String}
    (k : String) (v : α) (h : dictGet e k2 = none) (hne : k2 ≠ k) :
    dictGet (dictSet e k v) k2 = none := by
  rw [dictGet_dictSet, if_neg hne]; exact h

/-- Extension order on environments: every binding of the first is present
unchanged in the second. -/
def EnvExtends (e1 e2 : Env) : Prop :=
  ∀ k v, dictGet e1 k = some v → dictGet e2 k = some v

theorem EnvExtends.rfl (e : Env) : EnvExtends e e := fun _ _ h => h

theorem EnvExtends.trans {e1 e2 e3 : Env} (h1 : EnvExtends e1 e2)
    (h2 : EnvExtends e2 e3) : EnvExtends e1 e3 :=
  fun k v h => h2 k v (h1 k v h)

theorem EnvExtends.dictSet_fresh {e : Env} {k : String} (v : Value)
    (h : dictGet e k = none) : EnvExtends e (dictSet e k v) := by
  intro k2 v2 h2
  rw [dictGet_dictSet]
  split
  · rename_i hk; subst hk; rw [h2] at h; exact absurd h (by simp)
  · exact h2

theorem pyIndex_nonneg (l : List α) (i : Int) (h0 : 0 ≤ i) :
    pyIndex l i = l.get? i.toNat := by
  have h1 : ¬ i < 0 := by omega
  simp [pyIndex, h1]

theorem pyIndex_neg_of_len (l : List α) (i : Int) (h0 : i < 0)
    (h1 : 0 ≤ i + l.length) : pyIndex l i = l.get? (i + l.length).toNat := by
  have h2 : ¬ i + (l.length : Int) < 0 := by omega
  simp [pyIndex, h0, h2]

theorem pySliceTo_neg (l : List α) (stop : Int) (h0 : stop < 0) :
    pySliceTo l stop = l.take (stop + l.length).toNat := by
  simp [pySliceTo, h0]

theorem foldl_append_singleton (l : List α) (acc : List α) :
    l.foldl (fun a b => a ++ [b]) acc = acc ++ l := by
  induction l generalizing acc with
  | nil => simp
  | cons x xs ih => simp [List.foldl_cons, ih]

theorem except_bind_error (e : ε) (f : α → Except ε β) :
    (Except.error e >>= f) = Except.error e := rfl

theorem except_bind_ok (a : α) (f : α → Except ε β) :
    (Except.ok a >>= f) = f a := rfl

theorem except_throw_def (e : ε) : (throw e : Except ε α) = Except.error e := rfl

theorem except_pure_def (a : α) : (pure a : Except ε α) = Except.ok a := rfl

/-! ## Claim C1 — operator version resolution

The claim requires that a requested opset strictly below the minimum
registered version fails with an unimplemented-operator-version error.  In
the code, `versions[max(...) - 1]` is evaluated with the Python index `-1`
in exactly that situation, which wraps around to the LAST sorted entry —
the greatest registered version — and `hasattr` then succeeds, so the
greatest implementation is returned instead of an error.  This contradicts
both the claim and the method docstring, which promises the biggest
registered number smaller than or equal to the opset.  `MatMul` registers
only `_impl_v13`, and `from_onnx` defaults to opset 1 for models without
an opset import, making `([13], 1)` a realistic failing input. -/

/-- Claim C1: evaluating `get_converter` for a converter class with the
single registered version 13 at requested opset 1 — below the minimum —
returns the version-13 implementation instead of raising
`NotImplementedError`, refuting the failure half of the claim. -/
theorem getConverter_below_min_returns_max : getConverter [13] 1 = .ok 13 := by
  rfl

/-! ## Claim C3 — save/restore of the process-wide builder pointer -/

/-- Claim C3 (counterexample): when the nested legacy-to-primary
translation raises, the process-wide pointer is NOT restored to its saved
value — there is no `try/finally`, so the pointer stays `None` while the
exception propagates.  Starting from a saved builder `7` and a failing
nested translation, the final global differs from the saved one. -/
theorem bridgeTranslate_not_restored_on_error :
    bridgeTranslate ⟨some 7⟩ (.error (.externalFailure 0)) =
      (.error (.externalFailure 0), ⟨none⟩) ∧
    (⟨none⟩ : BuilderGlobal) ≠ ⟨some 7⟩ :=
  ⟨rfl, by decide⟩

/-- Claim C3 (amended): the pointer is saved before the nested translation
and restored afterwards on the normal-return path only; on every
exceptional path the exception propagates with the pointer left cleared
(`None`), not restored — a best-effort cleanup, not exception-safe scoped
state. -/
theorem bridgeTranslate_save_restore (s : BuilderGlobal)
    (nested : Except PyErr Nat) :
    (bridgeTranslate s nested).1 = nested ∧
    (∀ m, nested = .ok m → (bridgeTranslate s nested).2 = ⟨s.current⟩) ∧
    (∀ e, nested = .error e → (bridgeTranslate s nested).2 = ⟨none⟩) := by
  refine ⟨?_, ?_, ?_⟩
  · cases nested <;> rfl
  · intro m h; subst h; rfl
  · intro e h; subst h; rfl

/-- Witness for C3 (amended) at a concrete saved builder and a successful
nested translation. -/
theorem bridgeTranslate_save_restore_witness :
    (bridgeTranslate ⟨some 3⟩ (.ok 5)).2 = ⟨some 3⟩ :=
  (bridgeTranslate_save_restore ⟨some 3⟩ (.ok 5)).2.1 5 rfl

/-! ## Claim C10 — zero or missing dimensions become symbolic -/

/-- Claim C10: in `get_info`, a dimension whose declared value is missing
or `0` is replaced by a fresh symbolic int64 variable with its declared
symbolic name recorded in the dimension-name sequence, a nonzero declared
value is kept with the value recorded, and consequently the returned shape
never contains the concrete dimension `0`. -/
theorem getInfo_spec (p : ValueInfoProto) :
    (getInfo p).shape.length = p.type.dims.length ∧
    (getInfo p).shapeName.length = p.type.dims.length ∧
    (∀ (i : Nat) (d : DimProto), p.type.dims[i]? = some d →
      ((d.dim_value = none ∨ d.dim_value = some 0) →
        (getInfo p).shape[i]? = some (.sym "d") ∧
        (getInfo p).shapeName[i]? = some (.nm d.dim_param)) ∧
      (∀ v, d.dim_value = some v → v ≠ 0 →
        (getInfo p).shape[i]? = some (.val v) ∧
        (getInfo p).shapeName[i]? = some (.value v))) ∧
    (∀ d, d ∈ (getInfo p).shape → d ≠ Dim.val 0) := by
  refine ⟨by simp [getInfo], by simp [getInfo], ?_, ?_⟩
  · intro i d hd
    have h1 : (getInfo p).shape[i]? = some (dimToDim d) := by
      simp [getInfo, List.getElem?_map, hd]
    have h2 : (getInfo p).shapeName[i]? = some (dimToShapeName d) := by
      simp [getInfo, List.getElem?_map, hd]
    constructor
    · intro hz
      rcases hz with hz | hz <;>
        simp [h1, h2, dimToDim, dimToShapeName, hz]
    · intro v hv hvne
      simp [h1, h2, dimToDim, dimToShapeName, hv, hvne]
  · intro d hd
    simp only [getInfo, List.mem_map] at hd
    obtain ⟨d0, _, rfl⟩ := hd
    unfold dimToDim
    match hv : d0.dim_value with
    | none => simp
    | some v => by_cases hz : v = 0 <;> simp [hz]

/-- Witness for C10 at a concrete value descriptor with a zero-valued
batch dimension and a concrete dimension 3. -/
theorem getInfo_spec_witness :
    (getInfo ⟨"t", ⟨1, [⟨"batch", some 0⟩, ⟨"", some 3⟩]⟩⟩).shape[0]? =
      some (.sym "d") ∧
    (getInfo ⟨"t", ⟨1, [⟨"batch", some 0⟩, ⟨"", some 3⟩]⟩⟩).shapeName[0]? =
      some (.nm "batch") :=
  ((getInfo_spec ⟨"t", ⟨1, [⟨"batch", some 0⟩, ⟨"", some 3⟩]⟩⟩).2.2.1 0
    ⟨"batch", some 0⟩ rfl).1 (Or.inr rfl)

/-! ## Claim C2 — the bridge splice withholds the right bindings -/

/-- Claim C2: when the rewritten sub-module returns a tuple, the binding at
position `length - 2` (the tuple construction) provides the bridge's return
value and is not re-emitted, while exactly the bindings strictly before it
are re-emitted into the primary build context in original order; when the
return type is not a tuple, only the single final binding is withheld as
the return value and all earlier bindings are re-emitted in order. -/
theorem relayOutputSplice_spec (primary varBindings : List Binding) :
    (∀ fb, varBindings.get? (varBindings.length - 2) = some fb →
      2 ≤ varBindings.length →
      relayOutputSplice primary true varBindings =
        .ok (primary ++ varBindings.take (varBindings.length - 2), fb.value)) ∧
    (∀ fb, varBindings.get? (varBindings.length - 1) = some fb →
      1 ≤ varBindings.length →
      relayOutputSplice primary false varBindings =
        .ok (primary ++ varBindings.take (varBindings.length - 1), fb.value)) := by
  constructor
  · intro fb hfb hlen
    have h1 : pyIndex varBindings (-2) = some fb := by
      rw [pyIndex_neg_of_len _ _ (by omega) (by omega)]
      have he : ((-2 : Int) + varBindings.length).toNat = varBindings.length - 2 := by
        omega
      rw [he]; exact hfb
    have h2 : pySliceTo varBindings (-2) =
        varBindings.take (varBindings.length - 2) := by
      rw [pySliceTo_neg _ _ (by omega)]
      congr 1
      omega
    simp [relayOutputSplice, h1, h2, foldl_append_singleton]
  · intro fb hfb hlen
    have h1 : pyIndex varBindings (-1) = some fb := by
      rw [pyIndex_neg_of_len _ _ (by omega) (by omega)]
      have he : ((-1 : Int) + varBindings.length).toNat = varBindings.length - 1 := by
        omega
      rw [he]; exact hfb
    have h2 : pySliceTo varBindings (-1) =
        varBindings.take (varBindings.length - 1) := by
      rw [pySliceTo_neg _ _ (by omega)]
      congr 1
      omega
    simp [relayOutputSplice, h1, h2, foldl_append_singleton]

/-- Witness for C2: a three-binding tuple-returning sub-module re-emits
exactly the first binding and returns the value of the middle (tuple
construction) binding. -/
theorem relayOutputSplice_spec_witness :
    relayOutputSplice [] true [⟨0, 10⟩, ⟨1, 11⟩, ⟨2, 12⟩] = .ok ([⟨0, 10⟩], 11) :=
  (relayOutputSplice_spec [] [⟨0, 10⟩, ⟨1, 11⟩, ⟨2, 12⟩]).1 ⟨1, 11⟩ rfl (by decide)

/-! ## Claim C6 — attribute decoding and the one-variant invariant

The code only guards the repeated variant fields (`floats`, `ints`,
`strings`, `tensors`) with the only-one-type assertion, and only rejects
the repeated sub-graph field `graphs`; the singular sub-graph field `g`
sits in the first scalar loop and is decoded silently, and several
populated singular fields silently overwrite each other in processing
order. -/

/-- Claim C6 (counterexample): a record whose only populated variant is the
singular sub-graph field `g` is decoded to its value instead of being
rejected as unsupported, refuting the sub-graph-rejection part of the
claim (and, it being a lone populated variant among two sub-graph carrier
fields, the exactly-one-variant enforcement claimed more broadly). -/
theorem parseAttr_accepts_subgraph :
    parseAttr [⟨"sg", none, none, none, some 3, [], [], [], none, [], []⟩] [] =
      .ok [("sg", .vg 3)] := by
  rfl

/-- Claim C6 (amended): a record with no populated variant fails with the
cannot-parse error; a populated repeated-list variant alongside an
earlier-processed populated variant fails the only-one-type assertion; but
a record carrying the singular sub-graph field `g` is accepted and decoded
(only the repeated `graphs` field is rejected as unsupported), and several
populated singular fields are not rejected — the one processed last in the
order `f, i, s, g`, lists, `t` wins silently. -/
theorem parseAttr_amended (a : AttributeProto) :
    (a.f = none → a.i = none → a.s = none → a.g = none → a.floats = [] →
      a.ints = [] → a.strings = [] → a.t = none → a.tensors = [] →
      a.graphs = [] →
      parseAttr [a] [] = .error (.valueErrorCannotParse a.name)) ∧
    (∀ x, a.g = some x → a.floats = [] → a.ints = [] → a.strings = [] →
      a.t = none → a.tensors = [] → a.graphs = [] →
      parseAttr [a] [] = .ok [(a.name, .vg x)]) ∧
    (∀ x y, a.f = some x → a.i = some y → a.s = none → a.g = none →
      a.floats = [] → a.ints = [] → a.strings = [] → a.t = none →
      a.tensors = [] → a.graphs = [] →
      parseAttr [a] [] = .ok [(a.name, .vi y)]) ∧
    (∀ x, a.i = some x → a.floats = [] → a.ints ≠ [] →
      parseAttr [a] [] = .error (.assertOnlyOne a.name)) ∧
    (a.graphs ≠ [] → a.floats = [] → a.ints = [] → a.strings = [] →
      a.tensors = [] → parseAttr [a] [] = .error .notImplementedGraphs) := by
  obtain ⟨nm, f, i, s, g, fl, il, sl, t, tl, gl⟩ := a
  refine ⟨?_, ?_, ?_, ?_, ?_⟩
  · intro h1 h2 h3 h4 h5 h6 h7 h8 h9 h10
    simp only at h1 h2 h3 h4 h5 h6 h7 h8 h9 h10
    subst h1 h2 h3 h4 h5 h6 h7 h8 h9 h10
    simp [parseAttr, parseAttrOne, dictGet,
      except_bind_error, except_bind_ok, except_throw_def, except_pure_def]
  · intro x h1 h2 h3 h4 h5 h6 h7
    simp only at h1 h2 h3 h4 h5 h6 h7
    subst h1 h2 h3 h4 h5 h6 h7
    cases f <;> cases i <;> cases s <;>
      simp [parseAttr, parseAttrOne, dictGet, dictSet,
        except_bind_error, except_bind_ok, except_throw_def, except_pure_def]
  · intro x y h1 h2 h3 h4 h5 h6 h7 h8 h9 h10
    simp only at h1 h2 h3 h4 h5 h6 h7 h8 h9 h10
    subst h1 h2 h3 h4 h5 h6 h7 h8 h9 h10
    simp [parseAttr, parseAttrOne, dictGet, dictSet,
      except_bind_error, except_bind_ok, except_throw_def, except_pure_def]
  · intro x h1 h2 h3
    simp only at h1 h2 h3
    subst h1 h2
    cases f <;> cases s <;> cases g <;>
      simp [parseAttr, parseAttrOne, dictGet, dictSet, h3,
        except_bind_error, except_bind_ok, except_throw_def, except_pure_def]
  · intro h1 h2 h3 h4 h5
    simp only at h1 h2 h3 h4 h5
    subst h2 h3 h4 h5
    cases f <;> cases i <;> cases s <;> cases g <;> cases t <;>
      simp [parseAttr, parseAttrOne, dictGet, dictSet, h1,
        except_bind_error, except_bind_ok, except_throw_def, except_pure_def]

/-- Witness for C6 (amended): a record populating both `f` and `i` decodes
without any rejection, the `i` value overwriting the `f` value. -/
theorem parseAttr_amended_witness :
    parseAttr [⟨"a", some 1, some 2, none, none, [], [], [], none, [], []⟩] [] =
      .ok [("a", .vi 2)] :=
  (parseAttr_amended ⟨"a", some 1, some 2, none, none, [], [], [], none, [], []⟩).2.2.1
    1 2 rfl rfl rfl rfl rfl rfl rfl rfl rfl rfl

/-! ## Claim C9 — initializer registration -/

/-- Claim C9 (counterexample): two initializers with the same non-blank
name do not raise a duplicate-name error — the second registration
silently overwrites the first, refuting the collision half of the claim. -/
theorem parseGraphInits_allows_duplicates :
    parseGraphInits [⟨"w", 0⟩, ⟨"w", 1⟩] [] = .ok [("w", Value.const 1)] := by
  rfl

/-- A name bound by none of the initializers keeps whatever binding it had. -/
theorem parseGraphInits_preserves (inits : List InitTensor) (env e2 : Env)
    (nm : String) (hne : ∀ t ∈ inits, t.name ≠ nm)
    (h : parseGraphInits inits env = .ok e2) :
    dictGet e2 nm = dictGet env nm := by
  induction inits generalizing env with
  | nil => simp [parseGraphInits] at h; subst h; rfl
  | cons t rest ih =>
    simp only [parseGraphInits] at h
    by_cases hb : strBlank t.name
    · simp [hb] at h
    · rw [if_neg (by simp [hb])] at h
      have := ih (dictSet env t.name (.const t.tensorId))
        (fun u hu => hne u (List.mem_cons_of_mem _ hu)) h
      rw [this, dictGet_dictSet,
        if_neg (fun hk => hne t (List.mem_cons_self _ _) hk.symm)]

/-- Claim C9 (amended): initializer registration fails (with the
name-required error) exactly when some initializer name is blank; with all
names non-blank it succeeds, and when the names are also pairwise distinct
every initializer ends up registered as an IR constant keyed by its name.
Colliding names are not detected: a later initializer silently overwrites
an earlier one (see the counterexample). -/
theorem parseGraphInits_spec (inits : List InitTensor) (env : Env) :
    ((∀ t ∈ inits, strBlank t.name = false) →
      ∃ e2, parseGraphInits inits env = .ok e2 ∧
        ((inits.map (fun t => t.name)).Nodup →
          ∀ t ∈ inits, dictGet e2 t.name = some (.const t.tensorId))) ∧
    ((∃ t ∈ inits, strBlank t.name = true) →
      parseGraphInits inits env = .error .valueErrorBlankName) := by
  constructor
  · induction inits generalizing env with
    | nil =>
      exact fun _ => ⟨env, rfl, fun _ t ht => absurd ht (List.not_mem_nil t)⟩
    | cons t rest ih =>
      intro hnb
      have hbt : strBlank t.name = false := hnb t (List.mem_cons_self _ _)
      obtain ⟨e2, he2, hprop⟩ :=
        ih (dictSet env t.name (.const t.tensorId))
          (fun u hu => hnb u (List.mem_cons_of_mem _ hu))
      refine ⟨e2, ?_, ?_⟩
      · simp only [parseGraphInits, hbt]
        simpa using he2
      · intro hnd u hu
        rw [List.map_cons] at hnd
        have hnd2 := List.nodup_cons.mp hnd
        rcases List.mem_cons.mp hu with rfl | hu2
        · have hpres : dictGet e2 u.name =
              dictGet (dictSet env u.name (.const u.tensorId)) u.name := by
            refine parseGraphInits_preserves rest _ _ _ ?_ he2
            intro w hw hwk
            exact hnd2.1 (hwk ▸ List.mem_map_of_mem (fun t => t.name) hw)
          rw [hpres, dictGet_dictSet, if_pos rfl]
        · exact hprop hnd2.2 u hu2
  · induction inits generalizing env with
    | nil => intro hb; simp at hb
    | cons t rest ih =>
      intro hb
      rcases hb with ⟨u, hu, hub⟩
      rcases List.mem_cons.mp hu with rfl | hu2
      · simp [parseGraphInits, hub]
      · by_cases hbt : strBlank t.name
        · simp [parseGraphInits, hbt]
        · simp only [parseGraphInits, hbt]
          exact (by simpa using ih _ ⟨u, hu2, hub⟩)

/-- Witness for C9 (amended): a whitespace-only initializer name raises the
name-required error. -/
theorem parseGraphInits_spec_witness :
    parseGraphInits [⟨" ", 5⟩] [] = .error .valueErrorBlankName :=
  (parseGraphInits_spec [⟨" ", 5⟩] []).2 ⟨⟨" ", 5⟩, by decide, by decide⟩

/-! ## Claim C7 — aggregated unsupported-operator pre-check -/

theorem pySetAdd_mem (s : List String) (x y : String) :
    y ∈ pySetAdd s x ↔ y ∈ s ∨ y = x := by
  unfold pySetAdd
  split
  · rename_i hx
    constructor
    · exact Or.inl
    · rintro (h | rfl)
      · exact h
      · exact hx
  · simp

theorem collectUnsupported_mem (nodes : List NodeProto) (acc : List String)
    (x : String) :
    x ∈ collectUnsupported acc nodes ↔
      x ∈ acc ∨ ∃ n ∈ nodes, n.op_type = x ∧ x ∉ convertMapKeys ∧
        x ≠ "Constant" := by
  induction nodes generalizing acc with
  | nil => simp [collectUnsupported]
  | cons n rest ih =>
    simp only [collectUnsupported]
    rw [ih]
    split
    · rename_i hcond
      rw [pySetAdd_mem]
      constructor
      · rintro ((h | rfl) | h)
        · exact Or.inl h
        · exact Or.inr ⟨n, List.mem_cons_self _ _, rfl, hcond.1, hcond.2⟩
        · obtain ⟨m, hm, hx⟩ := h
          exact Or.inr ⟨m, List.mem_cons_of_mem _ hm, hx⟩
      · rintro (h | ⟨m, hm, hx⟩)
        · exact Or.inl (Or.inl h)
        · rcases List.mem_cons.mp hm with rfl | hm2
          · exact Or.inl (Or.inr hx.1.symm)
          · exact Or.inr ⟨m, hm2, hx⟩
    · rename_i hcond
      constructor
      · rintro (h | ⟨m, hm, hx⟩)
        · exact Or.inl h
        · exact Or.inr ⟨m, List.mem_cons_of_mem _ hm, hx⟩
      · rintro (h | ⟨m, hm, hx⟩)
        · exact Or.inl h
        · rcases List.mem_cons.mp hm with rfl | hm2
          · exact absurd ⟨hx.1 ▸ hx.2.1, hx.1 ▸ hx.2.2⟩ hcond
          · exact Or.inr ⟨m, hm2, hx⟩

theorem collectUnsupported_eq_nil (nodes : List NodeProto) :
    collectUnsupported [] nodes = [] ↔
      ∀ n ∈ nodes, n.op_type ∈ convertMapKeys ∨ n.op_type = "Constant" := by
  rw [List.eq_nil_iff_forall_not_mem]
  constructor
  · intro h n hn
    by_contra hcon
    push_neg at hcon
    exact h n.op_type ((collectUnsupported_mem nodes [] n.op_type).mpr
      (Or.inr ⟨n, hn, rfl, hcon.1, hcon.2⟩))
  · intro hall x hx
    obtain ⟨n, hn, rfl, hk, hc⟩ :=
      ((collectUnsupported_mem nodes [] x).mp hx).resolve_left
        (List.not_mem_nil x)
    rcases hall n hn with h | h
    · exact hk h
    · exact hc h

/-- Claim C7: the pre-check passes exactly when every node's operator tag
is in the supported catalog (the convert map, with the literal `Constant`
tag special-cased); otherwise it fails exactly once, with one error whose
name list holds precisely the distinct unknown tags of the whole graph —
and that error is the only failure the pre-check can produce. -/
theorem checkForUnsupportedOps_spec (nodes : List NodeProto) :
    (checkForUnsupportedOps nodes = .ok () ↔
      ∀ n ∈ nodes, n.op_type ∈ convertMapKeys ∨ n.op_type = "Constant") ∧
    (∀ u, checkForUnsupportedOps nodes = .error (.opNotImplemented u) →
      ∀ s, s ∈ u ↔ ∃ n ∈ nodes, n.op_type = s ∧ s ∉ convertMapKeys ∧
        s ≠ "Constant") ∧
    (∀ e, checkForUnsupportedOps nodes = .error e →
      ∃ u, e = .opNotImplemented u) := by
  refine ⟨?_, ?_, ?_⟩
  · constructor
    · intro h
      have hempty : collectUnsupported [] nodes = [] := by
        by_contra hne
        simp [checkForUnsupportedOps, hne] at h
      exact (collectUnsupported_eq_nil nodes).mp hempty
    · intro hall
      have hempty := (collectUnsupported_eq_nil nodes).mpr hall
      simp [checkForUnsupportedOps, hempty]
  · intro u hu s
    have hne : ¬ collectUnsupported [] nodes = [] := by
      intro hempty
      simp [checkForUnsupportedOps, hempty] at hu
    have hu2 : collectUnsupported [] nodes = u := by
      simpa [checkForUnsupportedOps, hne] using hu
    rw [← hu2, collectUnsupported_mem]
    simp
  · intro e he
    by_cases hempty : collectUnsupported [] nodes = []
    · simp [checkForUnsupportedOps, hempty] at he
    · have he2 : PyErr.opNotImplemented (collectUnsupported [] nodes) = e := by
        simpa [checkForUnsupportedOps, hempty] using he
      exact ⟨collectUnsupported [] nodes, he2.symm⟩

/-- Witness for C7: a graph with unknown tags `FooOp` and `BarOp` among
supported nodes fails with the single error naming exactly both. -/
theorem checkForUnsupportedOps_spec_witness :
    "BarOp" ∈ ["FooOp", "BarOp"] ∧
    ∃ n ∈ [(⟨"FooOp", [], ["a"], [], "n0"⟩ : NodeProto),
           ⟨"Add", [], ["b"], [], "n1"⟩, ⟨"BarOp", [], ["c"], [], "n2"⟩],
      n.op_type = "BarOp" ∧ "BarOp" ∉ convertMapKeys ∧ "BarOp" ≠ "Constant" :=
  ⟨by decide,
    ((checkForUnsupportedOps_spec
      [⟨"FooOp", [], ["a"], [], "n0"⟩, ⟨"Add", [], ["b"], [], "n1"⟩,
       ⟨"BarOp", [], ["c"], [], "n2"⟩]).2.1 ["FooOp", "BarOp"] rfl "BarOp").mp
      (by decide)⟩

/-! ## Claim C8 — input resolution and the absent placeholder

An empty-string reference contributes an explicit `None` slot at its own
position of the resolved input list (the list length counts it, so later
references keep their positions — this is what distinguishes a declared
absent slot from a position that simply does not exist), a non-empty
unbound reference raises a `KeyError`, and the helper sequence answers any
integer index at or past its length with the absent value instead of an
exception. -/

/-- Claim C8: input resolution and out-of-range indexing behave as
described above. -/
theorem resolveNodeInputs_spec :
    (∀ (env : Env) (names : List String) (res : List (Option Value)),
      resolveNodeInputs env names = .ok res →
      res.length = names.length ∧
      ∀ (i : Nat) (nm : String), names[i]? = some nm →
        (nm = "" → res[i]? = some none) ∧
        (nm ≠ "" → ∃ v, dictGet env nm = some v ∧ res[i]? = some (some v))) ∧
    (∀ (env : Env) (names : List String) (nm : String),
      nm ∈ names → nm ≠ "" → dictGet env nm = none →
      ∃ nm2, nm2 ∈ names ∧ nm2 ≠ "" ∧ dictGet env nm2 = none ∧
        resolveNodeInputs env names = .error (.keyError nm2)) ∧
    (∀ (xs : List (Option Value)) (i : Int),
      (xs.length : Int) ≤ i → onnxInputGet xs i = .ok none) := by
  refine ⟨?_, ?_, ?_⟩
  · intro env names
    induction names with
    | nil =>
      intro res h
      simp only [resolveNodeInputs] at h
      cases h
      simp
    | cons nm0 rest ih =>
      intro res h
      simp only [resolveNodeInputs] at h
      by_cases h0 : nm0 = ""
      · rw [if_pos h0] at h
        cases hr : resolveNodeInputs env rest with
        | error e => rw [hr] at h; cases h
        | ok res' =>
          rw [hr] at h
          cases h
          obtain ⟨hlen, hidx⟩ := ih res' hr
          refine ⟨by simp [hlen], ?_⟩
          intro i nm hnm
          cases i with
          | zero =>
            simp only [List.getElem?_cons_zero] at hnm
            cases hnm
            exact ⟨fun _ => by simp, fun hne => absurd h0 hne⟩
          | succ j =>
            simp only [List.getElem?_cons_succ] at hnm ⊢
            exact hidx j nm hnm
      · rw [if_neg h0] at h
        cases hg : dictGet env nm0 with
        | none => rw [hg] at h; cases h
        | some v =>
          rw [hg] at h
          cases hr : resolveNodeInputs env rest with
          | error e => rw [hr] at h; cases h
          | ok res' =>
            rw [hr] at h
            cases h
            obtain ⟨hlen, hidx⟩ := ih res' hr
            refine ⟨by simp [hlen], ?_⟩
            intro i nm hnm
            cases i with
            | zero =>
              simp only [List.getElem?_cons_zero] at hnm
              cases hnm
              exact ⟨fun he => absurd he h0, fun _ => ⟨v, hg, by simp⟩⟩
            | succ j =>
              simp only [List.getElem?_cons_succ] at hnm ⊢
              exact hidx j nm hnm
  · intro env names
    induction names with
    | nil => intro nm h; exact absurd h (List.not_mem_nil nm)
    | cons nm0 rest ih =>
      intro nm hmem hne hnone
      by_cases h0 : nm0 = ""
      · have hnm : nm ∈ rest := by
          rcases List.mem_cons.mp hmem with rfl | h
          · exact absurd h0 hne
          · exact h
        obtain ⟨nm2, hm2, hne2, hnone2, herr⟩ := ih nm hnm hne hnone
        refine ⟨nm2, List.mem_cons_of_mem _ hm2, hne2, hnone2, ?_⟩
        simp [resolveNodeInputs, h0, herr, Except.map]
      · cases hg : dictGet env nm0 with
        | none =>
          refine ⟨nm0, List.mem_cons_self _ _, h0, hg, ?_⟩
          simp [resolveNodeInputs, h0, hg]
        | some v =>
          have hnm : nm ∈ rest := by
            rcases List.mem_cons.mp hmem with rfl | h
            · rw [hg] at hnone; cases hnone
            · exact h
          obtain ⟨nm2, hm2, hne2, hnone2, herr⟩ := ih nm hnm hne hnone
          refine ⟨nm2, List.mem_cons_of_mem _ hm2, hne2, hnone2, ?_⟩
          simp [resolveNodeInputs, h0, hg, herr, Except.map]
  · intro xs i hlen
    have h1 : ¬ i < (xs.length : Int) := by omega
    simp [onnxInputGet, h1]

/-- Witness for C8: resolving `["", "a"]` against an environment binding
`a` yields the absent placeholder at position 0 and the bound value at
position 1, and indexing the helper sequence past its length yields the
absent value. -/
theorem resolveNodeInputs_spec_witness :
    ([none, some (Value.raw 7)] : List (Option Value))[0]? = some none ∧
    onnxInputGet [some (Value.raw 7), none] 5 = .ok none :=
  ⟨((resolveNodeInputs_spec.1 [("a", Value.raw 7)] ["", "a"]
      [none, some (Value.raw 7)] rfl).2 0 "" rfl).1 rfl,
   resolveNodeInputs_spec.2.2 [some (Value.raw 7), none] 5 (by decide)⟩

/-! ## Claim C5 — multi-output binding and output arity -/

theorem bindOutputsIdx_not_mem (opv : List Value) (env : Env) (ks : List String)
    (j : Nat) (k : String) (hk : k ∉ ks) :
    dictGet (bindOutputsIdx opv env ks j) k = dictGet env k := by
  induction ks generalizing env j with
  | nil => rfl
  | cons k0 rest ih =>
    simp only [bindOutputsIdx]
    rw [ih _ _ (fun h => hk (List.mem_cons_of_mem _ h)),
      dictGet_dictSet, if_neg (fun h => hk (by rw [h]; exact List.mem_cons_self _ _))]

theorem bindOutputsIdx_get (opv : List Value) (ks : List String) :
    ks.Nodup → ∀ (env : Env) (j i : Nat) (h : i < ks.length),
      dictGet (bindOutputsIdx opv env ks j) (ks.get ⟨i, h⟩) =
        some (opv.getD (j + i) (.tuple [])) := by
  induction ks with
  | nil => intro _ env j i h; exact absurd h (by simp)
  | cons k0 rest ih =>
    intro hnd env j i h
    have hnd2 := List.nodup_cons.mp hnd
    cases i with
    | zero =>
      simp only [List.get, bindOutputsIdx]
      rw [bindOutputsIdx_not_mem _ _ _ _ _ hnd2.1, dictGet_dictSet, if_pos rfl,
        Nat.add_zero]
    | succ m =>
      have hm : m < rest.length := by simpa using h
      have step := ih hnd2.2
        (dictSet env k0 (opv.getD j (.tuple []))) (j + 1) m hm
      simp only [List.get, bindOutputsIdx]
      rw [show j + (m + 1) = (j + 1) + m by omega]
      exact step

theorem bindOutputsIdx_extends (opv : List Value) (ks : List String) :
    ∀ (env : Env) (j : Nat), (∀ o ∈ ks, dictGet env o = none) → ks.Nodup →
      EnvExtends env (bindOutputsIdx opv env ks j) := by
  induction ks with
  | nil => intro env j _ _; exact EnvExtends.rfl env
  | cons k0 rest ih =>
    intro env j hfresh hnd
    have hnd2 := List.nodup_cons.mp hnd
    have hstep : EnvExtends env (dictSet env k0 (opv.getD j (.tuple []))) :=
      EnvExtends.dictSet_fresh _ (hfresh k0 (List.mem_cons_self _ _))
    refine EnvExtends.trans hstep (ih _ _ ?_ hnd2.2)
    intro o ho
    exact dictGet_dictSet_none _ _ (hfresh o (List.mem_cons_of_mem _ ho))
      (fun he => hnd2.1 (he ▸ ho))

/-- Claim C5 (counterexample): a converter returning a single value of
tuple type with exactly one field, for a node declaring one output, binds
that name to the reconstructed 1-tuple `relax.Tuple([TupleGetItem(op, 0)])`
— not to the component — because the single-output branch stores the
rebuilt `op` whole; this refutes the bound-to-the-corresponding-component
part of the claim. -/
theorem bindNodeOutputs_single_field_binds_wrapper :
    bindNodeOutputs (.single (.raw 0) (some 1)) ["y"] [] =
      .ok [("y", Value.tuple [Value.getItem (Value.raw 0) 0])] ∧
    Value.tuple [Value.getItem (Value.raw 0) 0] ≠
      Value.getItem (Value.raw 0) 0 :=
  ⟨rfl, fun h => Value.noConfusion h⟩

/-- Claim C5 (amended): a node declaring more outputs than the converter
produced fails with the missing-outputs assertion; a single converter value
of tuple type with at least two fields is unpacked, binding each declared
output name to its `TupleGetItem` component in order (given distinct
declared names); the degenerate one-field tuple instead binds the single
declared name to the reconstructed 1-tuple; an explicit converter tuple
with at least two elements binds each declared name to the matching
element in order; and a converter may produce more values than a node
declares (one or more) without error. -/
theorem bindNodeOutputs_spec (env : Env) (outputs : List String) :
    (∀ op, outputs.length > convValuesCount op →
      bindNodeOutputs op outputs env =
        .error (.assertMissingOutputs outputs.length (convValuesCount op))) ∧
    (∀ v n, 2 ≤ n → outputs.length ≤ n → outputs.Nodup →
      ∀ e2, bindNodeOutputs (.single v (some n)) outputs env = .ok e2 →
        ∀ (i : Nat) (h : i < outputs.length),
          dictGet e2 (outputs.get ⟨i, h⟩) = some (.getItem v i)) ∧
    (∀ vs, 2 ≤ vs.length → outputs.length ≤ vs.length → outputs.Nodup →
      ∀ e2, bindNodeOutputs (.tuple vs) outputs env = .ok e2 →
        ∀ (i : Nat) (h : i < outputs.length),
          dictGet e2 (outputs.get ⟨i, h⟩) = vs[i]?) ∧
    (∀ v o, bindNodeOutputs (.single v (some 1)) [o] env =
      .ok (dictSet env o (.tuple [.getItem v 0]))) ∧
    (∀ op, outputs ≠ [] → outputs.length ≤ convValuesCount op →
      ∃ e2, bindNodeOutputs op outputs env = .ok e2) := by
  refine ⟨?_, ?_, ?_, ?_, ?_⟩
  · intro op hgt
    simp [bindNodeOutputs, hgt]
  · intro v n h2 hle hnd e2 he2 i h
    have hngt : ¬ outputs.length > convValuesCount (.single v (some n)) := by
      simp [convValuesCount]; omega
    have hne1 : ¬ convValuesCount (ConvResult.single v (some n)) = 1 := by
      simp [convValuesCount]; omega
    simp only [bindNodeOutputs, if_neg hngt, if_neg hne1] at he2
    cases he2
    rw [bindOutputsIdx_get _ _ hnd _ 0 i h]
    have hlt : i < n := by omega
    simp [opvElems, List.getD, hlt]
  · intro vs h2 hle hnd e2 he2 i h
    have hngt : ¬ outputs.length > convValuesCount (.tuple vs) := by
      simp [convValuesCount]; omega
    have hne1 : ¬ convValuesCount (ConvResult.tuple vs) = 1 := by
      simp [convValuesCount]; omega
    simp only [bindNodeOutputs, if_neg hngt, if_neg hne1] at he2
    cases he2
    rw [bindOutputsIdx_get _ _ hnd _ 0 i h]
    have hlt : i < vs.length := by omega
    simp [opvElems, List.getD_eq_getElem?_getD, List.getElem?_eq_getElem hlt]
  · intro v o
    rfl
  · intro op hne hle
    obtain ⟨o, rest, rfl⟩ : ∃ o rest, outputs = o :: rest := by
      cases outputs with
      | nil => exact absurd rfl hne
      | cons o rest => exact ⟨o, rest, rfl⟩
    cases op with
    | single v tf =>
      cases tf with
      | none =>
        have hr : rest = [] := by
          have hlen : rest.length + 1 ≤ 1 := by
            simpa [convValuesCount] using hle
          exact List.eq_nil_of_length_eq_zero (by omega)
        subst hr
        exact ⟨_, rfl⟩
      | some n =>
        by_cases h1 : n = 1
        · subst h1
          have hr : rest = [] := by
            have hlen : rest.length + 1 ≤ 1 := by
              simpa [convValuesCount] using hle
            exact List.eq_nil_of_length_eq_zero (by omega)
          subst hr
          exact ⟨_, rfl⟩
        · refine ⟨bindOutputsIdx (opvElems (.single v (some n))) env (o :: rest) 0, ?_⟩
          have hngt : ¬ (o :: rest).length > convValuesCount (.single v (some n)) := by
            simp only [convValuesCount] at hle ⊢
            omega
          have h1b : ¬ convValuesCount (ConvResult.single v (some n)) = 1 := by
            simpa [convValuesCount] using h1
          simp only [bindNodeOutputs, if_neg hngt, if_neg h1b]
    | tuple vs =>
      by_cases h1 : vs.length = 1
      · have hr : rest = [] := by
          have hlen : rest.length + 1 ≤ 1 := by
            simpa [convValuesCount, h1] using hle
          exact List.eq_nil_of_length_eq_zero (by omega)
        subst hr
        refine ⟨dictSet env o (convertedValue (.tuple vs)), ?_⟩
        simp [bindNodeOutputs, convValuesCount, h1, convertedValue]
      · refine ⟨bindOutputsIdx (opvElems (.tuple vs)) env (o :: rest) 0, ?_⟩
        have hngt : ¬ (o :: rest).length > convValuesCount (.tuple vs) := by
          simp only [convValuesCount] at hle ⊢
          omega
        have h1b : ¬ convValuesCount (ConvResult.tuple vs) = 1 := by
          simpa [convValuesCount] using h1
        simp only [bindNodeOutputs, if_neg hngt, if_neg h1b]

/-- Witness for C5 (amended): a three-field tuple-typed result for a node
declaring three distinct outputs binds the middle name to the middle
`TupleGetItem` component. -/
theorem bindNodeOutputs_spec_witness :
    dictGet [("x", Value.getItem (Value.raw 0) 0),
             ("y", Value.getItem (Value.raw 0) 1),
             ("z", Value.getItem (Value.raw 0) 2)] "y" =
      some (.getItem (Value.raw 0) 1) :=
  (bindNodeOutputs_spec [] ["x", "y", "z"]).2.1 (Value.raw 0) 3 (by decide)
    (by decide) (by decide)
    [("x", Value.getItem (Value.raw 0) 0), ("y", Value.getItem (Value.raw 0) 1),
     ("z", Value.getItem (Value.raw 0) 2)] rfl 1 (by decide)

/-! ## Claim C4 — the environment grows monotonically -/

theorem parseGraphInits_append (l1 l2 : List InitTensor) (env : Env) :
    parseGraphInits (l1 ++ l2) env =
      (parseGraphInits l1 env).bind (fun e => parseGraphInits l2 e) := by
  induction l1 generalizing env with
  | nil => rfl
  | cons t rest ih =>
    simp only [List.cons_append, parseGraphInits]
    by_cases hb : strBlank t.name
    · rw [if_pos hb, if_pos hb]; rfl
    · rw [if_neg hb, if_neg hb]
      exact ih _

theorem parseGraphInput_append (cfg : ImportConfig) (l1 l2 : List ValueInfoProto)
    (env inputs : Env) :
    parseGraphInput cfg (l1 ++ l2) env inputs =
      parseGraphInput cfg l2 (parseGraphInput cfg l1 env inputs).1
        (parseGraphInput cfg l1 env inputs).2 := by
  induction l1 generalizing env inputs with
  | nil => rfl
  | cons vi rest ih =>
    simp only [List.cons_append, parseGraphInput]
    cases dictGet env (getInfo vi).name with
    | some _ => exact ih _ _
    | none => exact ih _ _

theorem constructNodes_append (conv : ConvOracle) (l1 l2 : List NodeProto)
    (env : Env) :
    constructNodes conv (l1 ++ l2) env =
      (constructNodes conv l1 env).bind (fun e => constructNodes conv l2 e) := by
  induction l1 generalizing env with
  | nil => rfl
  | cons nd rest ih =>
    simp only [List.cons_append, constructNodes]
    cases constructNode conv env nd with
    | error e => rfl
    | ok e2 => exact ih e2

/-- Input registration never touches a name that is not an input name. -/
theorem parseGraphInput_preserves (cfg : ImportConfig) (l : List ValueInfoProto)
    (k : String) (hk : ∀ vi ∈ l, vi.name ≠ k) :
    ∀ (env inputs : Env),
      dictGet (parseGraphInput cfg l env inputs).1 k = dictGet env k := by
  induction l with
  | nil => intro env inputs; rfl
  | cons vi rest ih =>
    intro env inputs
    have hkr : ∀ u ∈ rest, u.name ≠ k := fun u hu => hk u (List.mem_cons_of_mem _ hu)
    simp only [parseGraphInput]
    cases dictGet env (getInfo vi).name with
    | some _ => exact ih hkr _ _
    | none =>
      rw [ih hkr _ _, dictGet_dictSet,
        if_neg (fun h => hk vi (List.mem_cons_self _ _) (by simpa using h.symm))]

/-- Binding a node's outputs never touches a name outside its output list. -/
theorem bindNodeOutputs_preserves (op : ConvResult) (outs : List String)
    (env e2 : Env) (k : String) (hk : k ∉ outs)
    (h : bindNodeOutputs op outs env = .ok e2) :
    dictGet e2 k = dictGet env k := by
  simp only [bindNodeOutputs] at h
  split at h
  · cases h
  · split at h
    · cases outs with
      | nil => cases h
      | cons o rest =>
        cases h
        rw [dictGet_dictSet,
          if_neg (fun hko => hk (by rw [hko]; exact List.mem_cons_self _ _))]
    · cases h
      exact bindOutputsIdx_not_mem _ _ _ _ _ hk

/-- Constructing one node never touches a name outside its output list. -/
theorem constructNode_preserves (conv : ConvOracle) (env e2 : Env)
    (nd : NodeProto) (k : String) (hk : k ∉ nd.output)
    (h : constructNode conv env nd = .ok e2) :
    dictGet e2 k = dictGet env k := by
  simp only [constructNode] at h
  cases hattr : parseAttr nd.attrProtos [] with
  | error e => rw [hattr] at h; cases h
  | ok attr =>
    rw [hattr] at h
    simp only [except_bind_ok] at h
    cases hinp : resolveNodeInputs env nd.input with
    | error e => rw [hinp] at h; cases h
    | ok inputs =>
      rw [hinp] at h
      simp only [except_bind_ok] at h
      cases hop : convertOperator conv nd.op_type inputs
          (dictSet attr "tvm_custom" (.tvmCustom nd.name nd.output.length)) with
      | error e => rw [hop] at h; cases h
      | ok op =>
        rw [hop] at h
        simp only [except_bind_ok] at h
        exact bindNodeOutputs_preserves _ _ _ _ _ hk h

/-- A node pass never touches a name outside the nodes' output lists. -/
theorem constructNodes_preserves (conv : ConvOracle) (l : List NodeProto)
    (k : String) (hk : ∀ nd ∈ l, k ∉ nd.output) :
    ∀ (env e2 : Env), constructNodes conv l env = .ok e2 →
      dictGet e2 k = dictGet env k := by
  induction l with
  | nil => intro env e2 h; cases h; rfl
  | cons nd rest ih =>
    intro env e2 h
    simp only [constructNodes] at h
    cases hnd : constructNode conv env nd with
    | error e => rw [hnd] at h; cases h
    | ok em =>
      rw [hnd] at h
      simp only [except_bind_ok] at h
      rw [ih (fun u hu => hk u (List.mem_cons_of_mem _ hu)) em e2 h,
        constructNode_preserves conv env em nd k (hk nd (List.mem_cons_self _ _)) hnd]

theorem bindNodeOutputs_extends (op : ConvResult) (outs : List String)
    (env e2 : Env) (hfresh : ∀ o ∈ outs, dictGet env o = none)
    (hnd : outs.Nodup) (h : bindNodeOutputs op outs env = .ok e2) :
    EnvExtends env e2 := by
  simp only [bindNodeOutputs] at h
  split at h
  · cases h
  · split at h
    · cases outs with
      | nil => cases h
      | cons o rest =>
        cases h
        exact EnvExtends.dictSet_fresh _ (hfresh o (List.mem_cons_self _ _))
    · cases h
      exact bindOutputsIdx_extends _ _ _ _ hfresh hnd

theorem constructNode_extends (conv : ConvOracle) (env e2 : Env)
    (nd : NodeProto) (hfresh : ∀ o ∈ nd.output, dictGet env o = none)
    (hnd : nd.output.Nodup) (h : constructNode conv env nd = .ok e2) :
    EnvExtends env e2 := by
  simp only [constructNode] at h
  cases hattr : parseAttr nd.attrProtos [] with
  | error e => rw [hattr] at h; cases h
  | ok attr =>
    rw [hattr] at h
    simp only [except_bind_ok] at h
    cases hinp : resolveNodeInputs env nd.input with
    | error e => rw [hinp] at h; cases h
    | ok inputs =>
      rw [hinp] at h
      simp only [except_bind_ok] at h
      cases hop : convertOperator conv nd.op_type inputs
          (dictSet attr "tvm_custom" (.tvmCustom nd.name nd.output.length)) with
      | error e => rw [hop] at h; cases h
      | ok op =>
        rw [hop] at h
        simp only [except_bind_ok] at h
        exact bindNodeOutputs_extends _ _ _ _ hfresh hnd h

/-- One input-registration step always extends the environment: an
already-bound name is skipped, a fresh name is added. -/
theorem parseGraphInput_step_extends (cfg : ImportConfig) (vi : ValueInfoProto)
    (env inputs : Env) :
    EnvExtends env (parseGraphInput cfg [vi] env inputs).1 := by
  simp only [parseGraphInput]
  cases hg : dictGet env (getInfo vi).name with
  | some v => exact EnvExtends.rfl env
  | none => exact EnvExtends.dictSet_fresh _ hg

theorem nodup_get_not_mem_take {l : List α} (hnd : l.Nodup) :
    ∀ (i : Nat) (hi : i < l.length), l.get ⟨i, hi⟩ ∉ l.take i := by
  induction l with
  | nil => intro i hi; exact absurd hi (by simp)
  | cons x rest ih =>
    intro i hi
    have hx := List.nodup_cons.mp hnd
    cases i with
    | zero => simp
    | succ m =>
      simp only [List.take_succ_cons, List.get]
      intro hmem
      rcases List.mem_cons.mp hmem with heq | hmem2
      · exact hx.1 (heq ▸ List.get_mem rest _ _)
      · exact ih hx.2 m (by simpa using hi) hmem2

theorem join_map_nodup_get (f : α → List β) (l : List α)
    (hnd : ((l.map f).flatten).Nodup) :
    ∀ (i : Nat) (hi : i < l.length),
      (f (l.get ⟨i, hi⟩)).Nodup ∧
      ∀ o ∈ f (l.get ⟨i, hi⟩), o ∉ ((l.take i).map f).flatten := by
  induction l with
  | nil => intro i hi; exact absurd hi (by simp)
  | cons x rest ih =>
    intro i hi
    rw [List.map_cons, List.flatten_cons] at hnd
    have hparts := List.nodup_append.mp hnd
    cases i with
    | zero =>
      refine ⟨hparts.1, ?_⟩
      intro o _
      simp
    | succ m =>
      have hm : m < rest.length := by simpa using hi
      obtain ⟨ha, hb⟩ := ih hparts.2.1 m hm
      refine ⟨by simpa using ha, ?_⟩
      intro o ho
      simp only [List.take_succ_cons, List.map_cons, List.flatten_cons,
        List.mem_append]
      rintro (hcase | hcase)
      · have homem : o ∈ (rest.map f).flatten := by
          rw [List.mem_flatten]
          exact ⟨f (rest.get ⟨m, hm⟩),
            List.mem_map_of_mem f (List.get_mem rest _ _), by simpa using ho⟩
        exact hparts.2.2 hcase homem
      · exact hb o (by simpa using ho) hcase

/-- The environment after the first `i` initializer registrations of a
fresh import. -/
def envAtInit (g : GraphRec) (i : Nat) : Except PyErr Env :=
  parseGraphInits (g.inits.take i) []

/-- The environment after all initializers and the first `i` declared
inputs. -/
def envAtInput (cfg : ImportConfig) (g : GraphRec) (i : Nat) : Except PyErr Env :=
  (parseGraphInits g.inits []).map
    (fun e => (parseGraphInput cfg (g.input.take i) e []).1)

/-- The environment after both registration phases and the first `n` nodes
of the construction pass. -/
def envAtNode (conv : ConvOracle) (cfg : ImportConfig) (g : GraphRec) (n : Nat) :
    Except PyErr Env :=
  ((parseGraphInits g.inits []).map
      (fun e => (parseGraphInput cfg g.input e []).1)).bind
    (fun e => constructNodes conv (g.node.take n) e)

/-- Claim C4 (amended): for a graph whose initializer names are pairwise
distinct, whose node output names are pairwise distinct, and whose node
output names collide with no initializer or declared input name, the
environment grows monotonically through every step of the import — each
initializer registration, each input registration, and each node binding
extends the previous environment without rebinding any name.  (Without
those distinctness assumptions the code checks nothing and silently
rebinds; see the counterexample.) -/
theorem import_env_monotone (conv : ConvOracle) (cfg : ImportConfig)
    (g : GraphRec)
    (hni : (g.inits.map (fun t => t.name)).Nodup)
    (hno : ((g.node.map (fun nd => nd.output)).flatten).Nodup)
    (hdisj : ∀ o ∈ (g.node.map (fun nd => nd.output)).flatten,
      o ∉ g.inits.map (fun t => t.name) ∧ o ∉ g.input.map (fun vi => vi.name)) :
    (∀ i e1 e2, envAtInit g i = .ok e1 → envAtInit g (i + 1) = .ok e2 →
      EnvExtends e1 e2) ∧
    (∀ i e1 e2, envAtInput cfg g i = .ok e1 → envAtInput cfg g (i + 1) = .ok e2 →
      EnvExtends e1 e2) ∧
    (∀ n e1 e2, envAtNode conv cfg g n = .ok e1 → envAtNode conv cfg g (n + 1) = .ok e2 →
      EnvExtends e1 e2) := by
  refine ⟨?_, ?_, ?_⟩
  · intro i e1 e2 h1 h2
    rw [envAtInit, List.take_succ] at h2
    rw [envAtInit] at h1
    cases hgi : g.inits[i]? with
    | none =>
      rw [hgi] at h2
      simp only [Option.toList, List.append_nil] at h2
      rw [h1] at h2
      cases h2
      exact EnvExtends.rfl e1
    | some t =>
      rw [hgi] at h2
      simp only [Option.toList] at h2
      rw [parseGraphInits_append, h1] at h2
      simp only [Except.bind] at h2
      by_cases hb : strBlank t.name
      · simp only [parseGraphInits, if_pos hb] at h2
        cases h2
      · simp only [parseGraphInits, if_neg hb] at h2
        cases h2
        obtain ⟨hilt, hit⟩ := List.getElem?_eq_some_iff.mp hgi
        have hfresh : dictGet e1 t.name = none := by
          have hnm : t.name ∉ (g.inits.take i).map (fun t => t.name) := by
            have hmapped := nodup_get_not_mem_take hni i
              (by simpa using hilt)
            rw [List.get_eq_getElem, List.getElem_map, hit] at hmapped
            rw [← List.map_take] at hmapped
            exact hmapped
          have hne2 : ∀ u ∈ g.inits.take i, u.name ≠ t.name := by
            intro u hu hue
            exact hnm (hue ▸ List.mem_map_of_mem (fun t => t.name) hu)
          rw [parseGraphInits_preserves _ _ _ _ hne2 h1]
          rfl
        exact EnvExtends.dictSet_fresh _ hfresh
  · intro i e1 e2 h1 h2
    cases h0 : parseGraphInits g.inits [] with
    | error e => rw [envAtInput, h0] at h1; cases h1
    | ok e0 =>
      rw [envAtInput, h0] at h1 h2
      simp only [Except.map] at h1 h2
      cases h1
      cases h2
      rw [List.take_succ]
      cases hgi : g.input[i]? with
      | none => simp only [Option.toList, List.append_nil]; exact EnvExtends.rfl _
      | some vi =>
        simp only [Option.toList]
        rw [parseGraphInput_append]
        exact parseGraphInput_step_extends cfg vi _ _
  · intro n e1 e2 h1 h2
    cases hinit : parseGraphInits g.inits [] with
    | error e => rw [envAtNode, hinit] at h1; cases h1
    | ok ei =>
      rw [envAtNode, hinit] at h1 h2
      simp only [Except.map, Except.bind] at h1 h2
      rw [List.take_succ] at h2
      cases hgn : g.node[n]? with
      | none =>
        rw [hgn] at h2
        simp only [Option.toList, List.append_nil] at h2
        rw [h1] at h2
        cases h2
        exact EnvExtends.rfl e1
      | some nd =>
        rw [hgn] at h2
        simp only [Option.toList] at h2
        rw [constructNodes_append, h1] at h2
        simp only [Except.bind, constructNodes] at h2
        obtain ⟨hnlt, hnd⟩ := List.getElem?_eq_some_iff.mp hgn
        have hjoin := join_map_nodup_get (fun nd => nd.output) g.node hno n hnlt
        simp only [List.get_eq_getElem, hnd] at hjoin
        obtain ⟨hondup, honotbefore⟩ := hjoin
        cases hcn : constructNode conv e1 nd with
        | error e =>
          rw [hcn] at h2
          simp only [except_bind_error] at h2
          cases h2
        | ok em =>
          rw [hcn] at h2
          simp only [except_bind_ok, constructNodes] at h2
          cases h2
          refine constructNode_extends conv e1 _ nd ?_ hondup hcn
          intro o ho
          have hoflat : o ∈ (g.node.map (fun nd => nd.output)).flatten := by
            rw [List.mem_flatten]
            refine ⟨nd.output, ?_, ho⟩
            rw [← hnd]
            exact List.mem_map_of_mem _ (List.getElem_mem hnlt)
          obtain ⟨hnotinit, hnotinp⟩ := hdisj o hoflat
          have hei : dictGet ei o = none := by
            have hne2 : ∀ u ∈ g.inits, u.name ≠ o := fun u hu hue =>
              hnotinit (hue ▸ List.mem_map_of_mem _ hu)
            rw [parseGraphInits_preserves _ _ _ _ hne2 hinit]
            rfl
          have heinp : dictGet ((parseGraphInput cfg g.input ei []).1) o = none := by
            have hne3 : ∀ vi ∈ g.input, vi.name ≠ o := fun vi hv hve =>
              hnotinp (hve ▸ List.mem_map_of_mem _ hv)
            rw [parseGraphInput_preserves cfg g.input o hne3 ei []]
            exact hei
          have hk : ∀ nd2 ∈ g.node.take n, o ∉ nd2.output := by
            intro nd2 hnd2 ho2
            exact honotbefore o ho (List.mem_flatten.mpr
              ⟨nd2.output, List.mem_map_of_mem _ hnd2, ho2⟩)
          rw [constructNodes_preserves conv _ o hk _ e1 h1]
          exact heinp

/-- A converter oracle for concrete runs: every conversion yields one
opaque single result value. -/
def convStub : ConvOracle := fun _ _ _ => .ok (.single (.raw 1) none)

/-- Claim C4 (counterexample): an import whose graph has an initializer
named `x` and a node that also declares output `x` rebinds `x` with no
error anywhere — the environment maps `x` to the initializer constant
after initializer registration but to the converter result after node
construction, refuting the once-bound-never-rebound property as stated. -/
theorem fromOnnxGraph_rebinds_initializer :
    parseGraphInits [⟨"x", 0⟩] [] = .ok [("x", Value.const 0)] ∧
    fromOnnxGraph convStub ⟨[], .one 1⟩
        ⟨[⟨"x", 0⟩], [], [⟨"Add", [], ["x"], [], "n0"⟩], ["x"]⟩ =
      .ok ([("x", Value.raw 1)], Value.raw 1) ∧
    Value.raw 1 ≠ Value.const 0 :=
  ⟨rfl, rfl, fun h => Value.noConfusion h⟩

/-- A small well-named graph: one initializer `w`, one input `a`, one node
with output `y`. -/
def gGood : GraphRec :=
  ⟨[⟨"w", 0⟩], [⟨"a", ⟨1, []⟩⟩], [⟨"Add", ["w", "a"], ["y"], [], "n0"⟩], ["y"]⟩

/-- Witness for C4 (amended): on the concrete graph `gGood`, binding the
node output `y` extends the environment produced by the registration
phases. -/
theorem import_env_monotone_witness :
    EnvExtends [("w", Value.const 0), ("a", Value.param "a" [] (some 1))]
      [("w", Value.const 0), ("a", Value.param "a" [] (some 1)),
       ("y", Value.raw 1)] :=
  (import_env_monotone convStub ⟨[], .one 1⟩ gGood (by decide) (by decide)
    (by decide)).2.2 0 _ _ rfl rfl

end OnnxRelax
